import Mathlib

/-!
Verification of the hybrid rank-fusion query built in
`voyageai-vector-embeddings/voyage_hybrid_query.py`.

The script issues a `$vectorSearch` and (via `$unionWith`) a `$search`
against the same collection, ranks each branch's documents by position
(`$group`/`$push` into an array, then `$unwind` with
`includeArrayIndex: "rank"`), scores each document as
`1 / (rank + priority + 1)` (`make_compute_score_doc`), merges the two
branches by `_id` taking `$max` of each branch's score field
(`combine_search_results`), adds the two per-branch scores with `$ifNull`
defaults of 0 (`project_combined_results`), sorts by the combined score
descending (`sort_results`) and truncates (`limit_results`).

Modelling choices, recorded so each definition can be diffed against the
pipeline stage it embeds:
* Item identifiers (`_id`) are modelled as naturals; MongoDB only needs
  them to be comparable values.
* Scores are exact rationals.  The server computes in IEEE doubles; all
  claims here concern exact arithmetic identities, sign and order facts
  that the double computation shares for the tiny integer denominators
  involved.
* Presentation fields (`title`, `plot`, `year`) are carried through the
  pipeline by `$project`/`$first` untouched by any arithmetic and are
  omitted from the document records.
* `$group` does not promise an output order; we determinise it as
  first-appearance order of the group keys.  `$sort` on equal keys does
  not promise an order either; we determinise it as a stable sort on the
  single sort key `score` that the stage names.
* `$limit` (used both inside the `$unionWith` sub-pipeline and as the
  final stage) requires a positive argument: the server rejects the
  pipeline with error "the limit must be positive" otherwise, so the run
  is an `Except` value and a non-positive limit is the error case.
* `$max` as a `$group` accumulator ignores documents where the field is
  missing and yields null when no document had it; `Option ℚ` models the
  missing/null cases.
* `$divide` by zero is a server error; in `ℚ` the value is 0 instead.
  The claims that touch the score carry the hypothesis `0 ≤ priority`
  under which the denominator `rank + priority + 1` is at least 1 and a
  zero divisor never arises.
-/

/-- A document of one branch after `make_projection_doc`: its `_id` and the
branch's score field (`vs_score` or `ts_score`). -/
structure ScoredDoc where
  id : ℕ
  score : ℚ
deriving DecidableEq, Repr

/-- The scoring arithmetic of `make_compute_score_doc`:
`{"$divide": [1.0, {"$add": ["$rank", priority, 1]}]}`.  `priority` is a
Python int read from the environment, `rank` the `$unwind` array index. -/
def compute_score (priority : ℤ) (rank : ℕ) : ℚ :=
  1 / ((rank : ℚ) + (priority : ℚ) + 1)

/-- One branch of the pipeline after retrieval: `make_array` (`$group` with
`$push: "$$ROOT"`), `add_rank` (`$unwind` with `includeArrayIndex: "rank"`,
so `rank` is the zero-based position), `make_compute_score_doc` and
`make_projection_doc`.  The argument `rank` is the index of the head of the
remaining list, 0 at the top-level call. -/
def score_branch (priority : ℤ) (rank : ℕ) : List ℕ → List ScoredDoc
  | [] => []
  | x :: xs => ⟨x, compute_score priority rank⟩ :: score_branch priority (rank + 1) xs

/-- A document as it stands after `$unionWith`: vector-branch documents carry
only `vs_score`, text-branch documents only `ts_score`; a missing field is
`none`. -/
structure UnionDoc where
  id : ℕ
  vs_score : Option ℚ
  ts_score : Option ℚ
deriving DecidableEq, Repr

/-- Shape of a vector-branch document inside the union. -/
def vsDoc (d : ScoredDoc) : UnionDoc := ⟨d.id, some d.score, none⟩

/-- Shape of a text-branch document inside the union. -/
def tsDoc (d : ScoredDoc) : UnionDoc := ⟨d.id, none, some d.score⟩

/-- The `$max` group accumulator over the values of a field that were
present in the group: null (`none`) when no document had the field. -/
def maxAcc : List ℚ → Option ℚ
  | [] => none
  | s :: l =>
    match maxAcc l with
    | none => some s
    | some m => some (max s m)

/-- The distinct `$group` keys, in first appearance order (MongoDB leaves
the group output order unspecified; this is our determinisation). -/
def dedupKeys : List ℕ → List ℕ
  | [] => []
  | x :: xs => x :: (dedupKeys xs).filter (fun y => y ≠ x)

/-- A document produced by the `combine_search_results` group stage. -/
structure CombinedDoc where
  id : ℕ
  vs_score : Option ℚ
  ts_score : Option ℚ
deriving DecidableEq, Repr

/-- The `combine_search_results` stage: `$group` by `_id` with
`vs_score: {"$max": "$vs_score"}` and `ts_score: {"$max": "$ts_score"}`
(the `$first` accumulators for the presentation fields are omitted). -/
def combine_search_results (docs : List UnionDoc) : List CombinedDoc :=
  (dedupKeys (docs.map (fun d => d.id))).map (fun i =>
    ⟨i, maxAcc ((docs.filter (fun d => d.id = i)).filterMap (fun d => d.vs_score)),
        maxAcc ((docs.filter (fun d => d.id = i)).filterMap (fun d => d.ts_score))⟩)

/-- A final fused result: `_id` plus the combined `score` field. -/
structure FusedDoc where
  id : ℕ
  score : ℚ
deriving DecidableEq, Repr

/-- The `project_combined_results` stage: `score` is
`{"$add": ["$$vs_score", "$$ts_score"]}` with each variable bound through
`{"$ifNull": [..., 0]}`. -/
def project_combined_results (c : CombinedDoc) : FusedDoc :=
  ⟨c.id, c.vs_score.getD 0 + c.ts_score.getD 0⟩

/-- Insertion of one document into a list already sorted by `score`
descending, keeping it behind every strictly better document (stable on
ties). -/
def insertDesc (d : FusedDoc) : List FusedDoc → List FusedDoc
  | [] => [d]
  | x :: xs => if d.score < x.score then x :: insertDesc d xs else d :: x :: xs

/-- The `sort_results` stage `{"$sort": {"score": -1}}`: the single sort key
is `score`, descending.  MongoDB does not specify the order of documents
with equal sort keys; we determinise the stage as a stable sort. -/
def sort_results (l : List FusedDoc) : List FusedDoc :=
  l.foldr insertDesc []

/-- The `limit_results` stage `{"$limit": limit}` (used both in the
`$unionWith` sub-pipeline and as the final stage).  `$limit` takes a
positive integer; the server rejects a non-positive one with
"the limit must be positive". -/
def limit_results (limit : ℤ) (docs : List FusedDoc) : Except String (List FusedDoc) :=
  if limit ≤ 0 then Except.error "the limit must be positive"
  else Except.ok (docs.take limit.toNat)

/-- The hard-coded `overrequest_factor = 10` of `main`. -/
def overrequest_factor : ℕ := 10

/-- The `"limit"` field of the `$vectorSearch` stage: the number of
candidates the vector source returns.  In `main` it is the query limit
itself, not `limit * overrequest_factor`. -/
def vector_search_limit (limit : ℕ) : ℕ := limit

/-- The `"numCandidates"` field of the `$vectorSearch` stage: the internal
HNSW search breadth, `limit * overrequest_factor` in `main`.  It is not a
cap on returned candidates. -/
def vector_search_numCandidates (limit : ℕ) : ℕ := limit * overrequest_factor

/-- The `$limit` applied right after `$search` in the `$unionWith`
sub-pipeline: the number of candidates the text source contributes, again
the query limit itself. -/
def text_branch_limit (limit : ℕ) : ℕ := limit

/-- The merged document stream after `$unionWith`: the vector branch
(backend hits capped at the `$vectorSearch` limit, then ranked and scored
as `vs_score`) followed by the text branch (backend hits capped by
`$limit`, then ranked and scored as `ts_score`).  `vectorHits` and
`textHits` are the two backends' ranked hit lists, best first. -/
def branch_docs (vector_priority text_priority : ℤ) (n : ℕ)
    (vectorHits textHits : List ℕ) : List UnionDoc :=
  (score_branch vector_priority 0 (vectorHits.take (vector_search_limit n))).map vsDoc
    ++ (score_branch text_priority 0 (textHits.take (text_branch_limit n))).map tsDoc

/-- The fused documents before sorting: `combine_search_results` followed by
`project_combined_results`. -/
def fused_docs (vector_priority text_priority : ℤ) (n : ℕ)
    (vectorHits textHits : List ℕ) : List FusedDoc :=
  (combine_search_results (branch_docs vector_priority text_priority n vectorHits textHits)).map
    project_combined_results

/-- The whole aggregation of `main`, as a function of the two backends'
ranked hit lists.  A non-positive `limit` makes the server reject the
pipeline (both `$limit` stages and `$vectorSearch` require a positive
limit), which is checked before any document flows. -/
def pipeline (vector_priority text_priority limit : ℤ)
    (vectorHits textHits : List ℕ) : Except String (List FusedDoc) :=
  if limit ≤ 0 then Except.error "the limit must be positive"
  else
    limit_results limit
      (sort_results (fused_docs vector_priority text_priority limit.toNat vectorHits textHits))

/-- Modelled from the spec: the score a source contributes to an item — the
per-source score of its occurrences in that source's scored list, the
maximum of them if it occurs several times, and 0 when the item is absent
from the source.  Used to compare the pipeline's combined score against the
spec's sum-over-present-sources formula. -/
def sourceContrib (branch : List ScoredDoc) (i : ℕ) : ℚ :=
  (maxAcc ((branch.filter (fun d => d.id = i)).map (fun d => d.score))).getD 0

/-- Modelled from the spec: the output order §4.2 step 4 demands —
`CombinedScore` descending with ties broken by `ItemID` ascending. -/
def tieBreakOrdered (l : List FusedDoc) : Prop :=
  l.Pairwise (fun a b => b.score < a.score ∨ (a.score = b.score ∧ a.id < b.id))

/-! Arithmetic facts about the reciprocal-rank score. -/

lemma denom_pos (p : ℤ) (hp : 0 ≤ p) (r : ℕ) : (0 : ℚ) < (r : ℚ) + (p : ℚ) + 1 := by
  have h1 : (0 : ℚ) ≤ (r : ℚ) := Nat.cast_nonneg r
  have h2 : (0 : ℚ) ≤ (p : ℚ) := by exact_mod_cast hp
  linarith

lemma denom_ge_one (p : ℤ) (hp : 0 ≤ p) (r : ℕ) : (1 : ℚ) ≤ (r : ℚ) + (p : ℚ) + 1 := by
  have h1 : (0 : ℚ) ≤ (r : ℚ) := Nat.cast_nonneg r
  have h2 : (0 : ℚ) ≤ (p : ℚ) := by exact_mod_cast hp
  linarith

lemma compute_score_pos (p : ℤ) (hp : 0 ≤ p) (r : ℕ) : 0 < compute_score p r :=
  one_div_pos.mpr (denom_pos p hp r)

lemma compute_score_le_one (p : ℤ) (hp : 0 ≤ p) (r : ℕ) : compute_score p r ≤ 1 := by
  have h := one_div_le_one_div_of_le one_pos (denom_ge_one p hp r)
  simpa [compute_score] using h

lemma compute_score_lt_of_rank_lt (p : ℤ) (hp : 0 ≤ p) {r r' : ℕ} (h : r < r') :
    compute_score p r' < compute_score p r := by
  apply one_div_lt_one_div_of_lt (denom_pos p hp r)
  have : (r : ℚ) < (r' : ℚ) := by exact_mod_cast h
  linarith

lemma compute_score_anti_priority (p p' : ℤ) (hp : 0 ≤ p) (hpp : p ≤ p') (r : ℕ) :
    compute_score p' r ≤ compute_score p r := by
  apply one_div_le_one_div_of_le (denom_pos p hp r)
  have : (p : ℚ) ≤ (p' : ℚ) := by exact_mod_cast hpp
  linarith

/-! Basic facts about a scored branch. -/

lemma score_branch_map_id (p : ℤ) (k : ℕ) (l : List ℕ) :
    (score_branch p k l).map (fun d => d.id) = l := by
  induction l generalizing k with
  | nil => simp [score_branch]
  | cons x xs ih => simp [score_branch, ih]

lemma score_branch_length (p : ℤ) (k : ℕ) (l : List ℕ) :
    (score_branch p k l).length = l.length := by
  induction l generalizing k with
  | nil => simp [score_branch]
  | cons x xs ih => simp [score_branch, ih]

lemma score_pos_of_mem_score_branch (p : ℤ) (hp : 0 ≤ p) (k : ℕ) (l : List ℕ)
    (d : ScoredDoc) (hd : d ∈ score_branch p k l) : 0 < d.score := by
  induction l generalizing k with
  | nil => simp [score_branch] at hd
  | cons x xs ih =>
    simp only [score_branch, List.mem_cons] at hd
    rcases hd with h | h
    · rw [h]
      exact compute_score_pos p hp k
    · exact ih (k + 1) h

lemma score_branch_filter_eq_nil (p : ℤ) (k : ℕ) (l : List ℕ) (i : ℕ) (hi : i ∉ l) :
    (score_branch p k l).filter (fun d => d.id = i) = [] := by
  induction l generalizing k with
  | nil => simp [score_branch]
  | cons x xs ih =>
    have hx : x ≠ i := fun h => hi (h ▸ List.mem_cons_self x xs)
    have hxs : i ∉ xs := fun h => hi (List.mem_cons_of_mem x h)
    simp [score_branch, List.filter_cons, hx, ih (k + 1) hxs]

/-! Facts about the max accumulator. -/

lemma maxAcc_eq_none_iff (l : List ℚ) : maxAcc l = none ↔ l = [] := by
  cases l with
  | nil => simp [maxAcc]
  | cons s t =>
    simp only [maxAcc]
    cases maxAcc t <;> simp

lemma maxAcc_pos (l : List ℚ) (hl : ∀ x ∈ l, 0 < x) (m : ℚ) (hm : maxAcc l = some m) :
    0 < m := by
  induction l generalizing m with
  | nil => simp [maxAcc] at hm
  | cons s t ih =>
    simp only [maxAcc] at hm
    cases ht : maxAcc t with
    | none =>
      rw [ht] at hm
      have : s = m := by simpa using hm
      exact this ▸ hl s (List.mem_cons_self s t)
    | some m' =>
      rw [ht] at hm
      have hmax : max s m' = m := by simpa using hm
      have hs : 0 < s := hl s (List.mem_cons_self s t)
      have hm' : 0 < m' := ih (fun x hx => hl x (List.mem_cons_of_mem s hx)) m' ht
      rw [← hmax]
      exact lt_max_of_lt_left hs

lemma maxAcc_getD_nonneg (l : List ℚ) (hl : ∀ x ∈ l, 0 < x) : 0 ≤ (maxAcc l).getD 0 := by
  cases hm : maxAcc l with
  | none => simp
  | some m => simpa using (maxAcc_pos l hl m hm).le

lemma maxAcc_getD_mono (l l' : List ℚ) (h : List.Forall₂ (fun a b => a ≤ b) l l') :
    (maxAcc l).getD 0 ≤ (maxAcc l').getD 0 := by
  induction h with
  | nil => simp [maxAcc]
  | cons hab htail ih =>
    rename_i a b t t'
    have hlen := htail.length_eq
    simp only [maxAcc]
    cases ht : maxAcc t with
    | none =>
      have h0 : t = [] := (maxAcc_eq_none_iff t).mp ht
      have h1 : t' = [] := by
        rw [h0] at hlen
        exact List.length_eq_zero.mp hlen.symm
      rw [h1]
      simpa [maxAcc] using hab
    | some m =>
      have h1 : t' ≠ [] := by
        intro hnil
        rw [hnil] at hlen
        simp only [List.length_nil, List.length_eq_zero] at hlen
        rw [hlen] at ht
        simp [maxAcc] at ht
      obtain ⟨m', hm'⟩ : ∃ x, maxAcc t' = some x := by
        cases h2 : maxAcc t' with
        | none => exact absurd ((maxAcc_eq_none_iff t').mp h2) h1
        | some x => exact ⟨x, rfl⟩
      rw [ht, hm'] at ih
      rw [hm']
      simp only [Option.getD_some] at ih ⊢
      exact max_le_max hab ih

/-! Facts about the deduplicated group keys. -/

lemma mem_dedupKeys (a : ℕ) (l : List ℕ) : a ∈ dedupKeys l ↔ a ∈ l := by
  induction l with
  | nil => simp [dedupKeys]
  | cons x xs ih =>
    by_cases hax : a = x
    · simp [dedupKeys, hax]
    · simp [dedupKeys, hax, List.mem_filter, ih]

lemma nodup_dedupKeys (l : List ℕ) : (dedupKeys l).Nodup := by
  induction l with
  | nil => simp [dedupKeys]
  | cons x xs ih =>
    simp only [dedupKeys, List.nodup_cons]
    refine ⟨fun hx => ?_, List.Nodup.filter _ ih⟩
    have := (List.mem_filter.mp hx).2
    simp at this

/-! How the union's filter and filterMap interact with the branch tags. -/

lemma filter_map_vsDoc (l : List ScoredDoc) (i : ℕ) :
    (l.map vsDoc).filter (fun d => d.id = i) = (l.filter (fun d => d.id = i)).map vsDoc := by
  induction l with
  | nil => simp
  | cons x xs ih =>
    by_cases h : x.id = i <;> simp [vsDoc, List.filter_cons, h, ih]

lemma filter_map_tsDoc (l : List ScoredDoc) (i : ℕ) :
    (l.map tsDoc).filter (fun d => d.id = i) = (l.filter (fun d => d.id = i)).map tsDoc := by
  induction l with
  | nil => simp
  | cons x xs ih =>
    by_cases h : x.id = i <;> simp [tsDoc, List.filter_cons, h, ih]

lemma filterMap_vs_of_vsDoc (l : List ScoredDoc) :
    (l.map vsDoc).filterMap (fun d => d.vs_score) = l.map (fun d => d.score) := by
  induction l with
  | nil => simp
  | cons x xs ih => simp [vsDoc, List.filterMap_cons, ih]

lemma filterMap_vs_of_tsDoc (l : List ScoredDoc) :
    (l.map tsDoc).filterMap (fun d => d.vs_score) = [] := by
  induction l with
  | nil => simp
  | cons x xs ih => simp [tsDoc, List.filterMap_cons, ih]

lemma filterMap_ts_of_vsDoc (l : List ScoredDoc) :
    (l.map vsDoc).filterMap (fun d => d.ts_score) = [] := by
  induction l with
  | nil => simp
  | cons x xs ih => simp [vsDoc, List.filterMap_cons, ih]

lemma filterMap_ts_of_tsDoc (l : List ScoredDoc) :
    (l.map tsDoc).filterMap (fun d => d.ts_score) = l.map (fun d => d.score) := by
  induction l with
  | nil => simp
  | cons x xs ih => simp [tsDoc, List.filterMap_cons, ih]

/-! Characterisation of the group stage. -/

lemma combine_ids (docs : List UnionDoc) :
    (combine_search_results docs).map (fun c => c.id) = dedupKeys (docs.map (fun d => d.id)) := by
  unfold combine_search_results
  rw [List.map_map]
  exact List.map_id _

lemma mem_combine_spec (docs : List UnionDoc) (c : CombinedDoc)
    (hc : c ∈ combine_search_results docs) :
    c.id ∈ docs.map (fun d => d.id)
    ∧ c.vs_score = maxAcc ((docs.filter (fun d => d.id = c.id)).filterMap (fun d => d.vs_score))
    ∧ c.ts_score = maxAcc ((docs.filter (fun d => d.id = c.id)).filterMap (fun d => d.ts_score)) := by
  simp only [combine_search_results, List.mem_map] at hc
  obtain ⟨i, hi, rfl⟩ := hc
  exact ⟨(mem_dedupKeys i _).mp hi, rfl, rfl⟩

lemma combined_branch_scores (vs ts : List ScoredDoc) (c : CombinedDoc)
    (hc : c ∈ combine_search_results (vs.map vsDoc ++ ts.map tsDoc)) :
    (c.id ∈ vs.map (fun d => d.id) ∨ c.id ∈ ts.map (fun d => d.id))
    ∧ c.vs_score = maxAcc ((vs.filter (fun d => d.id = c.id)).map (fun d => d.score))
    ∧ c.ts_score = maxAcc ((ts.filter (fun d => d.id = c.id)).map (fun d => d.score)) := by
  obtain ⟨hid, hv, ht⟩ := mem_combine_spec _ c hc
  refine ⟨?_, ?_, ?_⟩
  · simpa [vsDoc, tsDoc, Function.comp] using hid
  · rw [hv, List.filter_append, List.filterMap_append, filter_map_vsDoc, filter_map_tsDoc,
      filterMap_vs_of_vsDoc, filterMap_vs_of_tsDoc, List.append_nil]
  · rw [ht, List.filter_append, List.filterMap_append, filter_map_vsDoc, filter_map_tsDoc,
      filterMap_ts_of_vsDoc, filterMap_ts_of_tsDoc, List.nil_append]

/-! The sort stage: a permutation that is sorted by score descending. -/

lemma insertDesc_perm (d : FusedDoc) (l : List FusedDoc) :
    List.Perm (insertDesc d l) (d :: l) := by
  induction l with
  | nil => simp [insertDesc]
  | cons x xs ih =>
    simp only [insertDesc]
    by_cases h : d.score < x.score
    · rw [if_pos h]
      exact (ih.cons x).trans (List.Perm.swap d x xs)
    · rw [if_neg h]

lemma sort_results_perm (l : List FusedDoc) : List.Perm (sort_results l) l := by
  induction l with
  | nil => simp [sort_results]
  | cons x xs ih =>
    have hx : sort_results (x :: xs) = insertDesc x (sort_results xs) := rfl
    rw [hx]
    exact (insertDesc_perm x (sort_results xs)).trans (ih.cons x)

lemma pairwise_insertDesc (d : FusedDoc) (l : List FusedDoc)
    (h : l.Pairwise (fun a b => b.score ≤ a.score)) :
    (insertDesc d l).Pairwise (fun a b => b.score ≤ a.score) := by
  induction l with
  | nil => simp [insertDesc]
  | cons x xs ih =>
    rw [List.pairwise_cons] at h
    obtain ⟨hx, hxs⟩ := h
    simp only [insertDesc]
    by_cases hc : d.score < x.score
    · rw [if_pos hc]
      rw [List.pairwise_cons]
      refine ⟨fun y hy => ?_, ih hxs⟩
      have hy' := (insertDesc_perm d xs).mem_iff.mp hy
      rcases List.mem_cons.mp hy' with rfl | hmem
      · exact hc.le
      · exact hx y hmem
    · rw [if_neg hc]
      have hdx : x.score ≤ d.score := le_of_not_lt hc
      rw [List.pairwise_cons]
      refine ⟨fun y hy => ?_, List.pairwise_cons.mpr ⟨hx, hxs⟩⟩
      rcases List.mem_cons.mp hy with rfl | hmem
      · exact hdx
      · exact (hx y hmem).trans hdx

lemma sort_results_sorted (l : List FusedDoc) :
    (sort_results l).Pairwise (fun a b => b.score ≤ a.score) := by
  induction l with
  | nil => simp [sort_results]
  | cons x xs ih => exact pairwise_insertDesc x (sort_results xs) ih

/-! Running the whole pipeline. -/

lemma pipeline_ok (vp tp limit : ℤ) (v t : List ℕ) (h : ¬ limit ≤ 0) :
    pipeline vp tp limit v t
      = Except.ok ((sort_results (fused_docs vp tp limit.toNat v t)).take limit.toNat) := by
  simp [pipeline, limit_results, h]

lemma pipeline_nonpos (vp tp limit : ℤ) (v t : List ℕ) (h : limit ≤ 0) :
    pipeline vp tp limit v t = Except.error "the limit must be positive" := by
  simp [pipeline, h]

lemma mem_sort_fused_of_mem_pipeline (vp tp limit : ℤ) (v t : List ℕ) (l : List FusedDoc)
    (hl : pipeline vp tp limit v t = Except.ok l) (d : FusedDoc) (hd : d ∈ l) :
    d ∈ fused_docs vp tp limit.toNat v t := by
  by_cases h : limit ≤ 0
  · rw [pipeline_nonpos vp tp limit v t h] at hl
    exact absurd hl (by simp)
  · rw [pipeline_ok vp tp limit v t h] at hl
    simp only [Except.ok.injEq] at hl
    rw [← hl] at hd
    have h1 : d ∈ sort_results (fused_docs vp tp limit.toNat v t) :=
      (List.take_sublist _ _).subset hd
    exact (sort_results_perm _).mem_iff.mp h1

lemma fused_docs_score (vp tp : ℤ) (n : ℕ) (v t : List ℕ) (d : FusedDoc)
    (hd : d ∈ fused_docs vp tp n v t) :
    (d.id ∈ v.take (vector_search_limit n) ∨ d.id ∈ t.take (text_branch_limit n))
    ∧ d.score = sourceContrib (score_branch vp 0 (v.take (vector_search_limit n))) d.id
              + sourceContrib (score_branch tp 0 (t.take (text_branch_limit n))) d.id := by
  simp only [fused_docs, List.mem_map] at hd
  obtain ⟨c, hc, rfl⟩ := hd
  rw [branch_docs] at hc
  obtain ⟨hid, hv, ht⟩ := combined_branch_scores _ _ c hc
  rw [score_branch_map_id, score_branch_map_id] at hid
  refine ⟨hid, ?_⟩
  show c.vs_score.getD 0 + c.ts_score.getD 0 = _
  simp only [sourceContrib, project_combined_results]
  rw [← hv, ← ht]

/-! Per-source contributions: sign, absence and priority monotonicity. -/

lemma sourceContrib_nonneg (p : ℤ) (hp : 0 ≤ p) (k : ℕ) (l : List ℕ) (i : ℕ) :
    0 ≤ sourceContrib (score_branch p k l) i := by
  apply maxAcc_getD_nonneg
  intro x hx
  simp only [List.mem_map] at hx
  obtain ⟨d, hd, rfl⟩ := hx
  exact score_pos_of_mem_score_branch p hp k l d (List.mem_of_mem_filter hd)

lemma sourceContrib_pos (p : ℤ) (hp : 0 ≤ p) (k : ℕ) (l : List ℕ) (i : ℕ) (hi : i ∈ l) :
    0 < sourceContrib (score_branch p k l) i := by
  have hall : ∀ x ∈ ((score_branch p k l).filter (fun d => d.id = i)).map (fun d => d.score),
      0 < x := by
    intro x hx
    simp only [List.mem_map] at hx
    obtain ⟨d, hd, rfl⟩ := hx
    exact score_pos_of_mem_score_branch p hp k l d (List.mem_of_mem_filter hd)
  have hi' : i ∈ (score_branch p k l).map (fun d => d.id) := by
    rw [score_branch_map_id]
    exact hi
  simp only [List.mem_map] at hi'
  obtain ⟨d, hd, hdi⟩ := hi'
  have hdf : d ∈ (score_branch p k l).filter (fun x => x.id = i) :=
    List.mem_filter.mpr ⟨hd, by simp [hdi]⟩
  have hne : ((score_branch p k l).filter (fun x => x.id = i)).map (fun x => x.score) ≠ [] := by
    intro hnil
    rw [List.map_eq_nil_iff] at hnil
    rw [hnil] at hdf
    simp at hdf
  unfold sourceContrib
  cases hm : maxAcc (((score_branch p k l).filter (fun x => x.id = i)).map (fun x => x.score)) with
  | none => exact absurd ((maxAcc_eq_none_iff _).mp hm) hne
  | some m =>
    simp only [Option.getD_some]
    exact maxAcc_pos _ hall m hm

lemma sourceContrib_absent (p : ℤ) (k : ℕ) (l : List ℕ) (i : ℕ) (hi : i ∉ l) :
    sourceContrib (score_branch p k l) i = 0 := by
  unfold sourceContrib
  rw [score_branch_filter_eq_nil p k l i hi]
  simp [maxAcc]

lemma score_branch_filter_scores_le (p p' : ℤ) (hp : 0 ≤ p) (hpp : p ≤ p') (i : ℕ)
    (k : ℕ) (l : List ℕ) :
    List.Forall₂ (fun a b => a ≤ b)
      (((score_branch p' k l).filter (fun d => d.id = i)).map (fun d => d.score))
      (((score_branch p k l).filter (fun d => d.id = i)).map (fun d => d.score)) := by
  induction l generalizing k with
  | nil => simp [score_branch]
  | cons x xs ih =>
    simp only [score_branch, List.filter_cons]
    by_cases h : x = i
    · simp only [h, decide_True, if_true, List.map_cons, List.forall₂_cons]
      exact ⟨compute_score_anti_priority p p' hp hpp k, ih (k + 1)⟩
    · simp only [h, decide_False, if_false]
      exact ih (k + 1)

lemma sourceContrib_anti_priority (p p' : ℤ) (hp : 0 ≤ p) (hpp : p ≤ p') (k : ℕ)
    (l : List ℕ) (i : ℕ) :
    sourceContrib (score_branch p' k l) i ≤ sourceContrib (score_branch p k l) i :=
  maxAcc_getD_mono _ _ (score_branch_filter_scores_le p p' hp hpp i k l)

/-! Concrete runs used to exercise the theorems. -/

lemma fused_eval_p0 : fused_docs 0 0 2 [5] [3] = [⟨5, 1⟩, ⟨3, 1⟩] := by
  norm_num [fused_docs, branch_docs, score_branch, compute_score, vsDoc, tsDoc,
    combine_search_results, dedupKeys, maxAcc, project_combined_results,
    vector_search_limit, text_branch_limit, List.filter, List.filterMap]

lemma fused_eval_p1 : fused_docs 1 0 2 [5] [3] = [⟨5, 1/2⟩, ⟨3, 1⟩] := by
  norm_num [fused_docs, branch_docs, score_branch, compute_score, vsDoc, tsDoc,
    combine_search_results, dedupKeys, maxAcc, project_combined_results,
    vector_search_limit, text_branch_limit, List.filter, List.filterMap]

lemma pipeline_eval_A : pipeline 0 0 2 [5] [3] = Except.ok [⟨5, 1⟩, ⟨3, 1⟩] := by
  rw [pipeline_ok 0 0 2 [5] [3] (by norm_num)]
  have h2 : (2 : ℤ).toNat = 2 := rfl
  rw [h2, fused_eval_p0]
  norm_num [sort_results, insertDesc]

lemma combine_eval_dup :
    combine_search_results (branch_docs 0 0 2 [7, 7] []) = [⟨7, some 1, none⟩] := by
  norm_num [branch_docs, score_branch, compute_score, vsDoc,
    combine_search_results, dedupKeys, maxAcc,
    vector_search_limit, text_branch_limit, List.filter, List.filterMap]

/-! The claims. -/

/-- C1: the per-source score of a candidate at zero-based rank `rank` under
source priority `priority` is `1 / (rank + priority + 1)`; at rank 0 it is 1
for priority 0 and 1/2 for priority 1, and for a fixed non-negative priority
it is strictly decreasing in the rank. -/
theorem claim_reciprocal_rank_score (p : ℤ) (hp : 0 ≤ p) (r r' : ℕ) (hr : r < r') :
    compute_score p r = 1 / ((r : ℚ) + (p : ℚ) + 1)
    ∧ compute_score 0 0 = 1
    ∧ compute_score 1 0 = 1 / 2
    ∧ compute_score p r' < compute_score p r := by
  refine ⟨rfl, by norm_num [compute_score], by norm_num [compute_score],
    compute_score_lt_of_rank_lt p hp hr⟩

/-- Witness: priority 0, ranks 0 and 1. -/
theorem claim_reciprocal_rank_score_witness :
    compute_score 0 0 = 1 ∧ compute_score 0 1 < compute_score 0 0 :=
  ⟨(claim_reciprocal_rank_score 0 le_rfl 0 1 (by norm_num)).2.1,
   (claim_reciprocal_rank_score 0 le_rfl 0 1 (by norm_num)).2.2.2⟩

/-- C2: every document in the fused output scores the sum, over the sources
it appears in, of that source's contribution; a source the item is absent
from contributes exactly 0, never a default or negative term. -/
theorem claim_combined_score_sum (vp tp limit : ℤ) (v t : List ℕ) (l : List FusedDoc)
    (d : FusedDoc) (hl : pipeline vp tp limit v t = Except.ok l) (hd : d ∈ l) :
    d.score = sourceContrib (score_branch vp 0 (v.take (vector_search_limit limit.toNat))) d.id
            + sourceContrib (score_branch tp 0 (t.take (text_branch_limit limit.toNat))) d.id
    ∧ (d.id ∉ v.take (vector_search_limit limit.toNat) →
        sourceContrib (score_branch vp 0 (v.take (vector_search_limit limit.toNat))) d.id = 0)
    ∧ (d.id ∉ t.take (text_branch_limit limit.toNat) →
        sourceContrib (score_branch tp 0 (t.take (text_branch_limit limit.toNat))) d.id = 0) := by
  have hf := mem_sort_fused_of_mem_pipeline vp tp limit v t l hl d hd
  obtain ⟨_, hsum⟩ := fused_docs_score vp tp limit.toNat v t d hf
  exact ⟨hsum, fun h => sourceContrib_absent vp 0 _ d.id h,
    fun h => sourceContrib_absent tp 0 _ d.id h⟩

/-- Witness: the run on vector hits `[5]`, text hits `[3]`, limit 2, at the
output item with id 5, which the text source does not contain. -/
theorem claim_combined_score_sum_witness :
    (⟨5, 1⟩ : FusedDoc).score
      = sourceContrib (score_branch 0 0 ([5].take (vector_search_limit (2 : ℤ).toNat)))
          (⟨5, 1⟩ : FusedDoc).id
      + sourceContrib (score_branch 0 0 ([3].take (text_branch_limit (2 : ℤ).toNat)))
          (⟨5, 1⟩ : FusedDoc).id
    ∧ ((⟨5, 1⟩ : FusedDoc).id ∉ [5].take (vector_search_limit (2 : ℤ).toNat) →
        sourceContrib (score_branch 0 0 ([5].take (vector_search_limit (2 : ℤ).toNat)))
          (⟨5, 1⟩ : FusedDoc).id = 0)
    ∧ ((⟨5, 1⟩ : FusedDoc).id ∉ [3].take (text_branch_limit (2 : ℤ).toNat) →
        sourceContrib (score_branch 0 0 ([3].take (text_branch_limit (2 : ℤ).toNat)))
          (⟨5, 1⟩ : FusedDoc).id = 0) :=
  claim_combined_score_sum 0 0 2 [5] [3] [⟨5, 1⟩, ⟨3, 1⟩] ⟨5, 1⟩ pipeline_eval_A (by simp)

/-- C3 counterexample: on vector hits `[5]` and text hits `[3]` with equal
priorities, both fused documents score 1 and the output is id 5 before id 3:
the sort stage's only key is the score, so equal-score documents are not
ordered by ascending item id. -/
theorem claim_tiebreak_counterexample :
    pipeline 0 0 2 [5] [3] = Except.ok [⟨5, 1⟩, ⟨3, 1⟩]
    ∧ ¬ tieBreakOrdered [⟨5, 1⟩, ⟨3, 1⟩] := by
  refine ⟨pipeline_eval_A, fun h => ?_⟩
  rw [tieBreakOrdered, List.pairwise_cons] at h
  have h53 := h.1 ⟨3, 1⟩ (by simp)
  rcases h53 with h1 | h2
  · exact absurd h1 (by norm_num)
  · exact absurd h2.2 (by norm_num)

/-- C3 amended: the returned list is ordered by combined score descending —
the score is non-increasing across consecutive positions — but equal scores
are not tie-broken by item id; they keep the unspecified group-stage order. -/
theorem claim_sorted_descending (vp tp limit : ℤ) (v t : List ℕ) (l : List FusedDoc)
    (hl : pipeline vp tp limit v t = Except.ok l) :
    l.Pairwise (fun a b => b.score ≤ a.score)
    ∧ l.Chain' (fun a b => b.score ≤ a.score) := by
  by_cases h : limit ≤ 0
  · rw [pipeline_nonpos vp tp limit v t h] at hl
    exact absurd hl (by simp)
  · rw [pipeline_ok vp tp limit v t h] at hl
    simp only [Except.ok.injEq] at hl
    rw [← hl]
    have hs := sort_results_sorted (fused_docs vp tp limit.toNat v t)
    have hpw := List.Pairwise.sublist
      (List.take_sublist limit.toNat (sort_results (fused_docs vp tp limit.toNat v t))) hs
    exact ⟨hpw, hpw.chain'⟩

/-- Witness: the run on vector hits `[5]`, text hits `[3]`, limit 2. -/
theorem claim_sorted_descending_witness :
    ([⟨5, 1⟩, ⟨3, 1⟩] : List FusedDoc).Pairwise (fun a b => b.score ≤ a.score)
    ∧ ([⟨5, 1⟩, ⟨3, 1⟩] : List FusedDoc).Chain' (fun a b => b.score ≤ a.score) :=
  claim_sorted_descending 0 0 2 [5] [3] [⟨5, 1⟩, ⟨3, 1⟩] pipeline_eval_A

/-- C4 counterexample: with a final limit of 10 the pipeline asks each
source for only 10 candidates — the `$vectorSearch` limit field and the text
branch's `$limit` are the final limit itself, not `10 * overrequest_factor =
100`. -/
theorem claim_overrequest_counterexample :
    vector_search_limit 10 = 10 ∧ text_branch_limit 10 = 10
    ∧ vector_search_limit 10 ≠ 10 * overrequest_factor
    ∧ text_branch_limit 10 ≠ 10 * overrequest_factor := by
  decide

/-- C4 amended: each source's candidate list entering the fusion is capped
at the per-source limit it was asked for, but that limit is the final limit
itself; the over-request factor of 10 enters only as the vector stage's
`numCandidates` internal search breadth, so fusion operates over at most
`finalLimit` candidates per source. -/
theorem claim_candidate_caps (vp tp : ℤ) (n : ℕ) (v t : List ℕ) :
    (score_branch vp 0 (v.take (vector_search_limit n))).length ≤ n
    ∧ (score_branch tp 0 (t.take (text_branch_limit n))).length ≤ n
    ∧ vector_search_limit n = n
    ∧ text_branch_limit n = n
    ∧ vector_search_numCandidates n = n * overrequest_factor := by
  refine ⟨?_, ?_, rfl, rfl, rfl⟩
  · rw [score_branch_length]
    exact List.length_take_le n v
  · rw [score_branch_length]
    exact List.length_take_le n t

/-- C5 counterexample: with final limit 0 and non-empty candidate lists the
aggregation is rejected with the server's `$limit` error instead of
returning an empty list. -/
theorem claim_zero_limit_counterexample :
    pipeline 1 1 0 [5] [3] = Except.error "the limit must be positive" :=
  pipeline_nonpos 1 1 0 [5] [3] le_rfl

/-- C5 amended: for every pair of candidate lists, a fusion call with a
non-positive final limit fails with the "the limit must be positive" error
of the `$limit` stage; it does not return an empty (or any) result list. -/
theorem claim_nonpositive_limit_errors (vp tp limit : ℤ) (v t : List ℕ) (h : limit ≤ 0) :
    pipeline vp tp limit v t = Except.error "the limit must be positive" :=
  pipeline_nonpos vp tp limit v t h

/-- Witness: limit -1 with empty candidate lists. -/
theorem claim_nonpositive_limit_errors_witness :
    pipeline 0 0 (-1) [] [] = Except.error "the limit must be positive" :=
  claim_nonpositive_limit_errors 0 0 (-1) [] [] (by norm_num)

/-- C6: the score the group stage records for an item under a source's name
is the `$max` of the scores of all of that item's occurrences in that
source's scored candidate list — so a duplicate id inside one source keeps
the maximum of its occurrence scores. -/
theorem claim_duplicate_occurrence_max (vp tp : ℤ) (n : ℕ) (v t : List ℕ) (c : CombinedDoc)
    (hc : c ∈ combine_search_results (branch_docs vp tp n v t)) :
    c.vs_score = maxAcc (((score_branch vp 0 (v.take (vector_search_limit n))).filter
        (fun d => d.id = c.id)).map (fun d => d.score))
    ∧ c.ts_score = maxAcc (((score_branch tp 0 (t.take (text_branch_limit n))).filter
        (fun d => d.id = c.id)).map (fun d => d.score)) := by
  rw [branch_docs] at hc
  obtain ⟨_, hv, ht⟩ := combined_branch_scores _ _ c hc
  exact ⟨hv, ht⟩

/-- Witness: vector hits `[7, 7]` (id 7 at ranks 0 and 1, scores 1 and 1/2),
whose recorded vector score is the maximum, 1. -/
theorem claim_duplicate_occurrence_max_witness :
    (⟨7, some 1, none⟩ : CombinedDoc).vs_score
      = maxAcc (((score_branch 0 0 ([7, 7].take (vector_search_limit 2))).filter
          (fun d => d.id = (⟨7, some 1, none⟩ : CombinedDoc).id)).map (fun d => d.score))
    ∧ (⟨7, some 1, none⟩ : CombinedDoc).ts_score
      = maxAcc (((score_branch 0 0 (([] : List ℕ).take (text_branch_limit 2))).filter
          (fun d => d.id = (⟨7, some 1, none⟩ : CombinedDoc).id)).map (fun d => d.score)) :=
  claim_duplicate_occurrence_max 0 0 2 [7, 7] [] ⟨7, some 1, none⟩
    (by rw [combine_eval_dup]; simp)

/-- C7: no item id appears twice in the returned list: the group stage keys
its output by id and the later stages only reorder or truncate. -/
theorem claim_output_nodup (vp tp limit : ℤ) (v t : List ℕ) (l : List FusedDoc)
    (hl : pipeline vp tp limit v t = Except.ok l) :
    (l.map (fun d => d.id)).Nodup := by
  by_cases h : limit ≤ 0
  · rw [pipeline_nonpos vp tp limit v t h] at hl
    exact absurd hl (by simp)
  · rw [pipeline_ok vp tp limit v t h] at hl
    simp only [Except.ok.injEq] at hl
    rw [← hl]
    have hnd : ((fused_docs vp tp limit.toNat v t).map (fun d => d.id)).Nodup := by
      unfold fused_docs
      rw [List.map_map]
      have he : ((fun d : FusedDoc => d.id) ∘ project_combined_results)
          = (fun c : CombinedDoc => c.id) := rfl
      rw [he, combine_ids]
      exact nodup_dedupKeys _
    have hperm : List.Perm
        ((sort_results (fused_docs vp tp limit.toNat v t)).map (fun d => d.id))
        ((fused_docs vp tp limit.toNat v t).map (fun d => d.id)) :=
      (sort_results_perm _).map _
    exact List.Nodup.sublist
      (List.Sublist.map _ (List.take_sublist limit.toNat _)) (hperm.nodup_iff.mpr hnd)

/-- Witness: the run on vector hits `[5]`, text hits `[3]`, limit 2. -/
theorem claim_output_nodup_witness :
    (([⟨5, 1⟩, ⟨3, 1⟩] : List FusedDoc).map (fun d => d.id)).Nodup :=
  claim_output_nodup 0 0 2 [5] [3] [⟨5, 1⟩, ⟨3, 1⟩] pipeline_eval_A

/-- C8: every id in the returned list comes from at least one of the two
sources' hit lists; the pipeline never fabricates an item neither source
retrieved. -/
theorem claim_no_fabricated_items (vp tp limit : ℤ) (v t : List ℕ) (l : List FusedDoc)
    (d : FusedDoc) (hl : pipeline vp tp limit v t = Except.ok l) (hd : d ∈ l) :
    d.id ∈ v ∨ d.id ∈ t := by
  have hf := mem_sort_fused_of_mem_pipeline vp tp limit v t l hl d hd
  obtain ⟨hmem, _⟩ := fused_docs_score vp tp limit.toNat v t d hf
  rcases hmem with h | h
  · exact Or.inl (List.take_subset _ _ h)
  · exact Or.inr (List.take_subset _ _ h)

/-- Witness: item 5 of the run on vector hits `[5]`, text hits `[3]`. -/
theorem claim_no_fabricated_items_witness :
    (⟨5, 1⟩ : FusedDoc).id ∈ [5] ∨ (⟨5, 1⟩ : FusedDoc).id ∈ [3] :=
  claim_no_fabricated_items 0 0 2 [5] [3] [⟨5, 1⟩, ⟨3, 1⟩] ⟨5, 1⟩ pipeline_eval_A (by simp)

/-- C9: raising the vector source's priority while holding both candidate
lists fixed never increases the per-candidate score that source contributes,
and never increases any fused item's combined score. -/
theorem claim_priority_monotone (vp vp' tp : ℤ) (n r : ℕ) (v t : List ℕ)
    (d d' : FusedDoc) (h0 : 0 ≤ vp) (hle : vp ≤ vp')
    (hd : d ∈ fused_docs vp tp n v t) (hd' : d' ∈ fused_docs vp' tp n v t)
    (hid : d'.id = d.id) :
    compute_score vp' r ≤ compute_score vp r ∧ d'.score ≤ d.score := by
  refine ⟨compute_score_anti_priority vp vp' h0 hle r, ?_⟩
  obtain ⟨_, hsum⟩ := fused_docs_score vp tp n v t d hd
  obtain ⟨_, hsum'⟩ := fused_docs_score vp' tp n v t d' hd'
  rw [hsum, hsum', hid]
  exact add_le_add_right
    (sourceContrib_anti_priority vp vp' h0 hle 0 (v.take (vector_search_limit n)) d.id) _

/-- Witness: item 5 scores 1 at vector priority 0 and 1/2 at priority 1. -/
theorem claim_priority_monotone_witness :
    compute_score 1 0 ≤ compute_score 0 0
    ∧ (⟨5, 1/2⟩ : FusedDoc).score ≤ (⟨5, 1⟩ : FusedDoc).score :=
  claim_priority_monotone 0 1 0 2 0 [5] [3] ⟨5, 1⟩ ⟨5, 1/2⟩ le_rfl (by norm_num)
    (by rw [fused_eval_p0]; simp) (by rw [fused_eval_p1]; simp) rfl

/-- C10: with a non-negative priority the scoring denominator is at least 1
(so the division never divides by zero), each per-source score lies in the
interval (0, 1], and every document the pipeline emits has a strictly
positive combined score. -/
theorem claim_score_bounds (p vp tp limit : ℤ) (r : ℕ) (v t : List ℕ) (l : List FusedDoc)
    (d : FusedDoc) (hp : 0 ≤ p) (hvp : 0 ≤ vp) (htp : 0 ≤ tp)
    (hl : pipeline vp tp limit v t = Except.ok l) (hd : d ∈ l) :
    (1 : ℚ) ≤ (r : ℚ) + (p : ℚ) + 1
    ∧ 0 < compute_score p r ∧ compute_score p r ≤ 1
    ∧ 0 < d.score := by
  refine ⟨denom_ge_one p hp r, compute_score_pos p hp r, compute_score_le_one p hp r, ?_⟩
  have hf := mem_sort_fused_of_mem_pipeline vp tp limit v t l hl d hd
  obtain ⟨hmem, hsum⟩ := fused_docs_score vp tp limit.toNat v t d hf
  rw [hsum]
  rcases hmem with h | h
  · have h1 := sourceContrib_pos vp hvp 0 _ d.id h
    have h2 := sourceContrib_nonneg tp htp 0 (t.take (text_branch_limit limit.toNat)) d.id
    linarith
  · have h1 := sourceContrib_nonneg vp hvp 0 (v.take (vector_search_limit limit.toNat)) d.id
    have h2 := sourceContrib_pos tp htp 0 _ d.id h
    linarith

/-- Witness: priority 0 at rank 0, and item 5 of the concrete run. -/
theorem claim_score_bounds_witness :
    (1 : ℚ) ≤ ((0 : ℕ) : ℚ) + ((0 : ℤ) : ℚ) + 1
    ∧ 0 < compute_score 0 0 ∧ compute_score 0 0 ≤ 1
    ∧ 0 < (⟨5, 1⟩ : FusedDoc).score :=
  claim_score_bounds 0 0 0 2 0 [5] [3] [⟨5, 1⟩, ⟨3, 1⟩] ⟨5, 1⟩ le_rfl le_rfl le_rfl
    pipeline_eval_A (by simp)
